import Mathlib

/-!
Verification development for the ParalegalAI hybrid-retrieval and parallel
ingestion subsystem.  Each JavaScript source function referenced below is
shallowly embedded as a Lean definition; asynchronous effects (network calls,
timers, logging) are abstracted into explicit outcome parameters, and machine
timestamps are modelled as natural numbers.
-/

namespace ParalegalAI

/-! ## ApiKeyRotator (server/utils/ApiKeyRotator.js)

State of one api key, mirroring the per-key record created in the
ApiKeyRotator constructor: requests, failures, lastUsed, rateLimitUntil.
The JavaScript null timestamps are modelled as Option values. -/

structure KeyStats where
  requests : Nat
  failures : Nat
  lastUsed : Option Nat
  rateLimitUntil : Option Nat
deriving DecidableEq, Repr

/-- Initial stats for a key, as set by the ApiKeyRotator constructor. -/
def KeyStats.init : KeyStats :=
  { requests := 0, failures := 0, lastUsed := none, rateLimitUntil := none }

/-- State of the ApiKeyRotator: the key pool, the round-robin cursor,
per-key stats (aligned by index with apiKeys) and the set of keys disabled
after repeated failures (this.failedKeys). -/
structure Rotator where
  apiKeys : List String
  currentIndex : Nat
  stats : List KeyStats
  failedKeys : List Nat
deriving DecidableEq, Repr

/-- Evaluation of the JavaScript guard
stats.rateLimitUntil and now < stats.rateLimitUntil (a null timestamp is
falsy, so a key with no rateLimitUntil is not cooling). -/
def KeyStats.cooling (s : KeyStats) (now : Nat) : Bool :=
  match s.rateLimitUntil with
  | some t => now < t
  | none => false

/-- A key index passes both skip checks of the getNextKey loop: it is not
rate limited at time now and it is not in failedKeys. -/
def Rotator.usableB (r : Rotator) (now i : Nat) : Bool :=
  !(KeyStats.cooling (r.stats.getD i KeyStats.init) now) && !(r.failedKeys.contains i)

/-- Indices visited by the getNextKey while loop, in visiting order: starting
at currentIndex and wrapping modulo the pool size, one full cycle. -/
def Rotator.scanOrder (r : Rotator) : List Nat :=
  (List.range r.apiKeys.length).map (fun k => (r.currentIndex + k) % r.apiKeys.length)

/-- State update performed when the loop settles on key index i:
stats[i].requests++, stats[i].lastUsed = now, and the cursor moves to the
next index modulo the pool size. -/
def Rotator.advance (r : Rotator) (i now : Nat) : Rotator :=
  { r with
    stats := r.stats.set i
      (let s := r.stats.getD i KeyStats.init
       { s with requests := s.requests + 1, lastUsed := some now }),
    currentIndex := (i + 1) % r.apiKeys.length }

/-- Model of ApiKeyRotator.getNextKey.  Date.now() is passed in as now.
With a single key the function returns it immediately without touching any
state.  Otherwise the while loop scans one full cycle from currentIndex,
skipping rate-limited and failed keys; the first usable key is returned
after its stats are updated.  If the whole cycle is skipped, the key at the
start index is returned with the state unchanged (the cursor has wrapped
back to startIndex after apiKeys.length increments). -/
def Rotator.getNextKey (r : Rotator) (now : Nat) : String × Rotator :=
  if r.apiKeys.length = 1 then
    (r.apiKeys.getD 0 "", r)
  else
    match r.scanOrder.find? (fun i => r.usableB now i) with
    | some i => (r.apiKeys.getD i "", r.advance i now)
    | none => (r.apiKeys.getD r.currentIndex "", r)

/-- Model of ApiKeyRotator.markRateLimited: looks the key up with indexOf
(the early return on -1 becomes the membership guard) and sets
rateLimitUntil = now + durationMs on its stats; an unknown key is a no-op.
No other field changes and the key is not disabled. -/
def Rotator.markRateLimited (r : Rotator) (apiKey : String) (durationMs now : Nat) : Rotator :=
  if r.apiKeys.contains apiKey then
    let i := r.apiKeys.indexOf apiKey
    { r with
      stats := r.stats.set i
        (let s := r.stats.getD i KeyStats.init
         { s with rateLimitUntil := some (now + durationMs) }) }
  else r

/-- Model of ApiKeyRotator.markFailed: increments the failure counter and,
once it reaches 5, adds the index to failedKeys. -/
def Rotator.markFailed (r : Rotator) (apiKey : String) : Rotator :=
  if r.apiKeys.contains apiKey then
    let i := r.apiKeys.indexOf apiKey
    let s := r.stats.getD i KeyStats.init
    let s2 := { s with failures := s.failures + 1 }
    { r with
      stats := r.stats.set i s2,
      failedKeys := if 5 ≤ s2.failures then r.failedKeys ++ [i] else r.failedKeys }
  else r

/-- Model of ApiKeyRotator.markSuccess: resets the failure counter and
removes the index from failedKeys. -/
def Rotator.markSuccess (r : Rotator) (apiKey : String) : Rotator :=
  if r.apiKeys.contains apiKey then
    let i := r.apiKeys.indexOf apiKey
    let s := r.stats.getD i KeyStats.init
    { r with
      stats := r.stats.set i { s with failures := 0 },
      failedKeys := r.failedKeys.filter (fun j => j ≠ i) }
  else r

/-- Formalisation of the phrase least-recently-used credential from the
specification: index i holds a key whose lastUsed timestamp is minimal in
the pool, a never-used key (lastUsed = none) counting as older than any
used one. -/
def Rotator.isLeastRecentlyUsed (r : Rotator) (i : Nat) : Bool :=
  decide (i < r.apiKeys.length) &&
  ((List.range r.apiKeys.length).all (fun j =>
    match (r.stats.getD i KeyStats.init).lastUsed, (r.stats.getD j KeyStats.init).lastUsed with
    | none, _ => true
    | some _, none => false
    | some a, some b => a ≤ b))

/-! Helper lemmas about the scan cycle. -/

lemma scanOrder_mem_lt (r : Rotator) {i : Nat} (h : i ∈ r.scanOrder) :
    i < r.apiKeys.length := by
  rcases List.mem_map.mp h with ⟨k, hk, rfl⟩
  have hn : 0 < r.apiKeys.length := by
    rcases Nat.eq_zero_or_pos r.apiKeys.length with h0 | h0
    · simp [Rotator.scanOrder, h0] at h
    · exact h0
  exact Nat.mod_lt _ hn

lemma mem_scanOrder (r : Rotator) {j : Nat} (hj : j < r.apiKeys.length) :
    j ∈ r.scanOrder := by
  set n := r.apiKeys.length with hn
  have hpos : 0 < n := Nat.lt_of_le_of_lt (Nat.zero_le _) hj
  refine List.mem_map.mpr ⟨(j + n - r.currentIndex % n) % n, List.mem_range.mpr (Nat.mod_lt _ hpos), ?_⟩
  have hle : r.currentIndex % n ≤ j + n :=
    le_trans (le_of_lt (Nat.mod_lt _ hpos)) (Nat.le_add_left _ _)
  calc (r.currentIndex + (j + n - r.currentIndex % n) % n) % n
      = (r.currentIndex + (j + n - r.currentIndex % n)) % n := Nat.add_mod_mod ..
    _ = (r.currentIndex % n + (j + n - r.currentIndex % n)) % n := (Nat.mod_add_mod ..).symm
    _ = (j + n) % n := by rw [Nat.add_sub_cancel' hle]
    _ = j := by
        rw [Nat.add_mod_right]
        exact Nat.mod_eq_of_lt hj

lemma getNextKey_avoids_unusable (r : Rotator) (now i j : Nat)
    (hi : i < r.apiKeys.length)
    (hcool : r.usableB now i = false)
    (hj : j < r.apiKeys.length) (hij : j ≠ i)
    (husable : r.usableB now j = true)
    (hnodup : r.apiKeys.Nodup) :
    (r.getNextKey now).1 ≠ r.apiKeys.getD i "" := by
  have hn2 : r.apiKeys.length ≠ 1 := by
    intro h1
    exact hij (by omega)
  have hfind : r.scanOrder.find? (fun k => r.usableB now k) ≠ none := by
    intro h
    exact (List.find?_eq_none.mp h j (mem_scanOrder r hj)) husable
  rcases hf : r.scanOrder.find? (fun k => r.usableB now k) with _ | m
  · exact absurd hf hfind
  have hm : r.usableB now m = true := List.find?_some hf
  have hmlt : m < r.apiKeys.length := scanOrder_mem_lt r (List.mem_of_find?_eq_some hf)
  have hmi : m ≠ i := by
    intro he
    rw [he, hcool] at hm
    exact Bool.false_ne_true hm
  have hkey : r.getNextKey now = (r.apiKeys.getD m "", r.advance m now) := by
    unfold Rotator.getNextKey
    rw [if_neg hn2, hf]
  rw [hkey]
  simp only
  rw [List.getD_eq_getElem _ _ hmlt, List.getD_eq_getElem _ _ hi]
  intro he
  have hfin : (⟨m, hmlt⟩ : Fin r.apiKeys.length) = ⟨i, hi⟩ :=
    hnodup.get_inj_iff.mp (by simpa using he)
  exact hmi (congrArg Fin.val hfin)

/-- C5: a credential marked rate-limited at time T with cooldown duration D
is never returned by getNextKey at any time now before T + D, as long as
some other usable (not cooling, not disabled) credential exists in the
pool. -/
theorem credential_cooldown_respected (r : Rotator) (key : String) (D T now j : Nat)
    (hwf : r.stats.length = r.apiKeys.length)
    (hnodup : r.apiKeys.Nodup)
    (hkey : key ∈ r.apiKeys)
    (hnow : now < T + D)
    (hj : j < r.apiKeys.length)
    (hjk : r.apiKeys.getD j "" ≠ key)
    (husable : (r.markRateLimited key D T).usableB now j = true) :
    ((r.markRateLimited key D T).getNextKey now).1 ≠ key := by
  have hc : r.apiKeys.contains key = true := List.elem_iff.mpr hkey
  have hilt : r.apiKeys.indexOf key < r.apiKeys.length := List.indexOf_lt_length.mpr hkey
  have hgi : r.apiKeys.getD (r.apiKeys.indexOf key) "" = key := by
    rw [List.getD_eq_getElem _ _ hilt]
    exact List.indexOf_get hilt
  set i := r.apiKeys.indexOf key with hidef
  set r2 := r.markRateLimited key D T with hr2
  have hkeys2 : r2.apiKeys = r.apiKeys := by
    rw [hr2]
    unfold Rotator.markRateLimited
    rw [if_pos hc]
  have hstats2 : r2.stats.getD i KeyStats.init =
      (let s := r.stats.getD i KeyStats.init
       { s with rateLimitUntil := some (T + D) }) := by
    rw [hr2]
    unfold Rotator.markRateLimited
    rw [if_pos hc]
    simp only
    rw [List.getD_eq_getElem _ _ (by rw [List.length_set, hwf]; exact hilt)]
    rw [List.getElem_set_self]
  have hcool2 : r2.usableB now i = false := by
    unfold Rotator.usableB
    rw [hstats2]
    simp only [KeyStats.cooling]
    simp [hnow]
  have hji : j ≠ i := by
    intro he
    rw [he, hgi] at hjk
    exact hjk rfl
  have hres := getNextKey_avoids_unusable r2 now i j
    (by rw [hkeys2]; exact hilt) hcool2 (by rw [hkeys2]; exact hj) hji husable
    (by rw [hkeys2]; exact hnodup)
  rw [hkeys2, hgi] at hres
  exact hres

/-- C5 witness: a concrete two-key pool where key a is rate limited at time
100 for 60000ms; at time 150 the other key b is usable, and getNextKey does
not return a. -/
theorem credential_cooldown_respected_witness :
    (((Rotator.mk ["a", "b"] 0 [KeyStats.init, KeyStats.init] []).markRateLimited
        "a" 60000 100).getNextKey 150).1 ≠ "a" :=
  credential_cooldown_respected
    (Rotator.mk ["a", "b"] 0 [KeyStats.init, KeyStats.init] [])
    "a" 60000 100 150 1
    (by decide) (by decide) (by decide) (by decide) (by decide) (by decide) (by decide)

/-- Concrete state used for the degraded-mode claim: three keys, all rate
limited until time 100; key k1 at index 1 is the least recently used
(lastUsed 10, against 30 and 40), while the scan cursor sits at index 0. -/
def degradedRotator : Rotator :=
  { apiKeys := ["k0", "k1", "k2"],
    currentIndex := 0,
    stats :=
      [{ requests := 3, failures := 0, lastUsed := some 30, rateLimitUntil := some 100 },
       { requests := 1, failures := 0, lastUsed := some 10, rateLimitUntil := some 100 },
       { requests := 4, failures := 0, lastUsed := some 40, rateLimitUntil := some 100 }],
    failedKeys := [] }

/-- C6 counterexample: with every credential cooling down, getNextKey
returns the key at the scan start index (k0), which is not the
least-recently-used credential (that is k1). -/
theorem degraded_mode_not_lru :
    (degradedRotator.getNextKey 50).1 = "k0" ∧
      degradedRotator.isLeastRecentlyUsed 0 = false ∧
      degradedRotator.isLeastRecentlyUsed 1 = true ∧
      (degradedRotator.getNextKey 50).1 ≠ "k1" := by
  decide

/-- C6 (amended): whenever every credential in the pool is unusable at time
now, getNextKey returns the credential sitting at the current round-robin
cursor (where the scan started), with the rotator state unchanged — it
neither blocks nor fails, but the returned key need not be the
least-recently-used one. -/
theorem degraded_mode_returns_start_index (r : Rotator) (now : Nat)
    (hcur : r.currentIndex < r.apiKeys.length)
    (hall : ∀ i, i < r.apiKeys.length → r.usableB now i = false) :
    r.getNextKey now = (r.apiKeys.getD r.currentIndex "", r) := by
  by_cases h1 : r.apiKeys.length = 1
  · have h0 : r.currentIndex = 0 := by omega
    unfold Rotator.getNextKey
    rw [if_pos h1, h0]
  · have hfind : r.scanOrder.find? (fun k => r.usableB now k) = none :=
      List.find?_eq_none.mpr (fun x hx => by simp [hall x (scanOrder_mem_lt r hx)])
    unfold Rotator.getNextKey
    rw [if_neg h1, hfind]

/-- C6 witness: the degraded rotator above, at time 50: all three keys are
cooling and getNextKey hands back k0 (index 0, the cursor) unchanged. -/
theorem degraded_mode_returns_start_index_witness :
    degradedRotator.getNextKey 50 = ("k0", degradedRotator) :=
  degraded_mode_returns_start_index degradedRotator 50 (by decide)
    (by decide)

/-- C10: with exactly one credential in the pool, getNextKey returns it
unconditionally — without consulting the rate-limit or failure checks and
without mutating any state (no request-count increment, no lastUsed
update). -/
theorem single_key_returned_unconditionally (r : Rotator) (now : Nat)
    (h1 : r.apiKeys.length = 1) :
    r.getNextKey now = (r.apiKeys.getD 0 "", r) := by
  unfold Rotator.getNextKey
  rw [if_pos h1]

/-- Concrete single-key rotator whose only key is currently rate limited
and disabled after repeated failures. -/
def singleKeyRotator : Rotator :=
  { apiKeys := ["k1"],
    currentIndex := 0,
    stats := [{ requests := 7, failures := 9, lastUsed := some 3, rateLimitUntil := some 1000 }],
    failedKeys := [0] }

/-- C10 witness: the single key is cooling at time 5 (5 < 1000) and is in
failedKeys, yet getNextKey returns it with the state untouched. -/
theorem single_key_returned_unconditionally_witness :
    KeyStats.cooling (singleKeyRotator.stats.getD 0 KeyStats.init) 5 = true ∧
      singleKeyRotator.failedKeys.contains 0 = true ∧
      singleKeyRotator.getNextKey 5 = ("k1", singleKeyRotator) :=
  ⟨by decide, by decide,
    single_key_returned_unconditionally singleKeyRotator 5 (by decide)⟩

/-! ## ParallelDocumentProcessor (server/utils/parallelDocumentProcessor.js)

chunkArray is the identical slicing helper defined in both
ParallelDocumentProcessor and ParallelGeminiEmbedder: the JavaScript loop
advances i by size and pushes array.slice(i, i + size).  The explicit fuel
(bounded by the list length, since each step consumes at least one element
when 0 < size) keeps the definition structural; a size of 0, which would
loop forever in JavaScript, is mapped to the empty list and excluded by
the hypotheses of every theorem below. -/

def chunkArrayGo {α : Type} (size : Nat) : Nat → List α → List (List α)
  | 0, _ => []
  | _ + 1, [] => []
  | fuel + 1, x :: xs => (x :: xs).take size :: chunkArrayGo size fuel ((x :: xs).drop size)

/-- Model of chunkArray(array, size). -/
def chunkArray {α : Type} (size : Nat) (l : List α) : List (List α) :=
  if size = 0 then [] else chunkArrayGo size l.length l

lemma chunkArrayGo_length {α : Type} (size : Nat) (hs : 0 < size) :
    ∀ (fuel : Nat) (l : List α), l.length ≤ fuel →
      (chunkArrayGo size fuel l).length = (l.length + size - 1) / size := by
  intro fuel
  induction fuel with
  | zero =>
      intro l hl
      have : l = [] := List.eq_nil_of_length_eq_zero (Nat.le_zero.mp hl)
      subst this
      simp [chunkArrayGo, Nat.div_eq_of_lt (by omega : size - 1 < size)]
  | succ fuel ih =>
      intro l hl
      match l with
      | [] => simp [chunkArrayGo, Nat.div_eq_of_lt (by omega : size - 1 < size)]
      | x :: xs =>
          have hlen : ((x :: xs).drop size).length = (x :: xs).length - size := by
            simp
          have hrec := ih ((x :: xs).drop size) (by rw [hlen]; simp at hl ⊢; omega)
          set n := (x :: xs).length with hn
          have hn1 : 1 ≤ n := by simp [hn]
          simp only [chunkArrayGo, List.length_cons]
          rw [hrec, hlen]
          by_cases hc : size ≤ n
          · rw [show n - size + size - 1 = n - 1 by omega,
              show n + size - 1 = (n - 1) + size by omega, Nat.add_div_right _ hs]
          · rw [show n - size = 0 by omega]
            rw [Nat.div_eq_of_lt (by omega : 0 + size - 1 < size)]
            rw [Nat.div_eq_of_lt_le (by omega : 1 * size ≤ n + size - 1)
              (by omega : n + size - 1 < (1 + 1) * size)]

lemma chunkArrayGo_flatten {α : Type} (size : Nat) (hs : 0 < size) :
    ∀ (fuel : Nat) (l : List α), l.length ≤ fuel →
      (chunkArrayGo size fuel l).flatten = l := by
  intro fuel
  induction fuel with
  | zero =>
      intro l hl
      have : l = [] := List.eq_nil_of_length_eq_zero (Nat.le_zero.mp hl)
      subst this
      simp [chunkArrayGo]
  | succ fuel ih =>
      intro l hl
      match l with
      | [] => simp [chunkArrayGo]
      | x :: xs =>
          have hrec := ih ((x :: xs).drop size) (by simp at hl ⊢; omega)
          simp only [chunkArrayGo, List.flatten_cons, hrec]
          exact List.take_append_drop size (x :: xs)

lemma chunkArray_length {α : Type} (size : Nat) (hs : 0 < size) (l : List α) :
    (chunkArray size l).length = (l.length + size - 1) / size := by
  unfold chunkArray
  rw [if_neg (Nat.pos_iff_ne_zero.mp hs)]
  exact chunkArrayGo_length size hs l.length l le_rfl

lemma chunkArray_flatten {α : Type} (size : Nat) (hs : 0 < size) (l : List α) :
    (chunkArray size l).flatten = l := by
  unfold chunkArray
  rw [if_neg (Nat.pos_iff_ne_zero.mp hs)]
  exact chunkArrayGo_flatten size hs l.length l le_rfl

/-- Accumulated results of ParallelDocumentProcessor.processDocuments:
results.embedded collects the paths of vectorized documents, while
results.failedToEmbed collects result.filename for the permanently failed
ones (the errors set is not modelled, being irrelevant to the counting
claim). -/
structure ProcessResults where
  embedded : List String
  failedToEmbed : List String
deriving DecidableEq, Repr

/-- Per-batch forEach of processDocuments: a successful document pushes its
path onto embedded, a failed one pushes its reported filename onto
failedToEmbed.  The outcome oracle abstracts the eventual result of
processSingleDocument after its internal retries; fname abstracts the
filename field of a failure record. -/
def processBatch (outcome : String → Bool) (fname : String → String)
    (acc : ProcessResults) (batch : List String) : ProcessResults :=
  batch.foldl
    (fun a p =>
      if outcome p then { a with embedded := a.embedded ++ [p] }
      else { a with failedToEmbed := a.failedToEmbed ++ [fname p] })
    acc

/-- Model of ParallelDocumentProcessor.processDocuments: the paths are cut
into outer batches of batchSize by chunkArray and each batch contributes
its results in order. -/
def processDocuments (outcome : String → Bool) (fname : String → String)
    (batchSize : Nat) (documentPaths : List String) : ProcessResults :=
  (chunkArray batchSize documentPaths).foldl (processBatch outcome fname) ⟨[], []⟩

lemma processBatch_count (outcome : String → Bool) (fname : String → String) :
    ∀ (batch : List String) (acc : ProcessResults),
      (processBatch outcome fname acc batch).embedded.length +
        (processBatch outcome fname acc batch).failedToEmbed.length =
      acc.embedded.length + acc.failedToEmbed.length + batch.length := by
  intro batch
  induction batch with
  | nil => intro acc; simp [processBatch]
  | cons p ps ih =>
      intro acc
      simp only [processBatch, List.foldl_cons]
      by_cases h : outcome p = true
      · rw [if_pos h]
        have := ih { acc with embedded := acc.embedded ++ [p] }
        simp only [processBatch] at this
        rw [this]
        simp
        omega
      · rw [if_neg h]
        have := ih { acc with failedToEmbed := acc.failedToEmbed ++ [fname p] }
        simp only [processBatch] at this
        rw [this]
        simp
        omega

lemma processBatches_count (outcome : String → Bool) (fname : String → String) :
    ∀ (batches : List (List String)) (acc : ProcessResults),
      (batches.foldl (processBatch outcome fname) acc).embedded.length +
        (batches.foldl (processBatch outcome fname) acc).failedToEmbed.length =
      acc.embedded.length + acc.failedToEmbed.length + (batches.map List.length).sum := by
  intro batches
  induction batches with
  | nil => intro acc; simp
  | cons b bs ih =>
      intro acc
      simp only [List.foldl_cons, List.map_cons, List.sum_cons]
      rw [ih, processBatch_count]
      omega

set_option maxRecDepth 8192 in
/-- C7: with outer batch size B > 0, processDocuments cuts N documents into
exactly ⌈N/B⌉ batches; every document lands in exactly one result list, so
the embedded and failedToEmbed counts always sum to N; and the concrete
scenario of 250 documents at batch size 100 yields three batches of sizes
100, 100 and 50. -/
theorem ingestion_accounting (outcome : String → Bool) (fname : String → String)
    (B : Nat) (hB : 0 < B) (paths : List String) :
    (chunkArray B paths).length = paths.length ⌈/⌉ B ∧
      (processDocuments outcome fname B paths).embedded.length +
        (processDocuments outcome fname B paths).failedToEmbed.length = paths.length ∧
      (chunkArray 100 (List.range 250)).map List.length = [100, 100, 50] := by
  refine ⟨?_, ?_, by decide⟩
  · rw [chunkArray_length B hB, Nat.ceilDiv_eq_add_pred_div]
  · unfold processDocuments
    rw [processBatches_count]
    have := congrArg List.length (chunkArray_flatten B hB paths)
    rw [List.length_flatten] at this
    simpa using this

/-- C7 witness: three documents at batch size 2, where only d2 fails:
two batches, one failure, and 2 + 1 = 3 accounted entries. -/
theorem ingestion_accounting_witness :
    (chunkArray 2 ["d1", "d2", "d3"]).length = (3 : Nat) ⌈/⌉ 2 ∧
      (processDocuments (fun p => p ≠ "d2") id 2 ["d1", "d2", "d3"]).embedded.length +
        (processDocuments (fun p => p ≠ "d2") id 2 ["d1", "d2", "d3"]).failedToEmbed.length = 3 ∧
      (chunkArray 100 (List.range 250)).map List.length = [100, 100, 50] :=
  ingestion_accounting (fun p => p ≠ "d2") id 2 (by decide) ["d1", "d2", "d3"]

/-! ## ParallelGeminiEmbedder (server/utils/EmbeddingEngines/gemini/ParallelGeminiEmbedder.js)

The network is abstracted into two deterministic outcome oracles:
batchOutcome models the overall result of embedBatch's
batchEmbedContents call after its maxRetries attempts with rotated keys
(none = every attempt failed, triggering the individual fallback), and
embedOne models the per-text result of an individual embedContent call
(none = the chunk permanently fails).  Vectors are lists of rationals;
key-rotator bookkeeping and sleeps have no bearing on the returned value
and are not modelled here. -/

/-- Model of ParallelGeminiEmbedder.embedIndividually: the loop pushes the
embedding values on success and null on failure (here: the Option produced
by embedOne), and the final statement filters the nulls out of the returned
array — filterMap id is exactly push-then-filter-non-null. -/
def embedIndividually (embedOne : String → Option (List ℚ))
    (textBatch : List String) : List (List ℚ) :=
  let embeddings := textBatch.map embedOne
  embeddings.filterMap id

/-- Model of ParallelGeminiEmbedder.embedBatch: a successful (possibly
retried) batch call returns its vectors; once all retries are exhausted the
batch falls back to embedIndividually. -/
def embedBatch (batchOutcome : List String → Option (List (List ℚ)))
    (embedOne : String → Option (List ℚ)) (textBatch : List String) : List (List ℚ) :=
  match batchOutcome textBatch with
  | some embeddings => embeddings
  | none => embedIndividually embedOne textBatch

/-- Model of ParallelGeminiEmbedder.embedChunks: empty input short-circuits
to []; otherwise the chunks are cut into batches of maxBatchSize = 100,
each batch is embedded (Promise.all preserves submission order), and the
per-batch results are flattened. -/
def embedChunks (batchOutcome : List String → Option (List (List ℚ)))
    (embedOne : String → Option (List ℚ)) (textChunks : List String) : List (List ℚ) :=
  if textChunks = [] then []
  else ((chunkArray 100 textChunks).map (embedBatch batchOutcome embedOne)).flatten

/-! ## ParallelQdrant.addDocumentToNamespace
(server/utils/vectorDbProviders/qdrant/ParallelQdrantProvider.js)

The for-loop over vectorValues.entries() that builds the Qdrant submission:
entry i is paired with textChunks[i] as its payload text.  The generated
uuid and the spread metadata do not interact with the text field and are
omitted; an out-of-range textChunks[i] is JavaScript undefined, modelled as
none. -/

structure VectorRecord where
  vector : List ℚ
  payloadText : Option String
deriving DecidableEq, Repr

/-- Model of the vectorRecord construction loop of addDocumentToNamespace:
payload text for the i-th returned vector is textChunks[i]. -/
def buildSubmission (textChunks : List String) (vectorValues : List (List ℚ)) :
    List VectorRecord :=
  vectorValues.mapIdx (fun i v => { vector := v, payloadText := textChunks[i]? })

/-- Outcome oracle for the failure scenarios: the chunk a permanently
fails to embed individually, b embeds to [1] and every other chunk to
[2]. -/
def failFirstEmbed : String → Option (List ℚ) :=
  fun t => if t = "a" then none else if t = "b" then some [1] else some [2]

/-- C2: evaluation at the failing input.  With chunks [a, b] where a
permanently fails (batch retries exhausted, individual embed of a fails),
embedChunks returns [[1]] — the entry for the failed chunk is omitted
outright, so the result is shorter than the input instead of carrying a
null placeholder in position 0. -/
theorem embedChunks_omits_failed_entries :
    embedChunks (fun _ => none) failFirstEmbed ["a", "b"] = [[1]] ∧
      (embedChunks (fun _ => none) failFirstEmbed ["a", "b"]).length ≠
        (["a", "b"] : List String).length := by
  decide

/-- C1: evaluation at the failing input.  With chunks [a, b, c] where a
permanently fails, the vectors produced from b and c are persisted with
payload texts a and b respectively: there is a persisted record whose
vector is the embedding of chunk b but whose payload text is not b. -/
theorem payload_text_misaligned_on_partial_failure :
    buildSubmission ["a", "b", "c"]
        (embedChunks (fun _ => none) failFirstEmbed ["a", "b", "c"]) =
      [{ vector := [1], payloadText := some "a" },
       { vector := [2], payloadText := some "b" }] ∧
      ∃ r ∈ buildSubmission ["a", "b", "c"]
          (embedChunks (fun _ => none) failFirstEmbed ["a", "b", "c"]),
        failFirstEmbed "b" = some r.vector ∧ r.payloadText ≠ some "b" := by
  decide

/-! ## BM25 tokenization (server/utils/vectorDbProviders/bm25.js, tokenize)

Character-level embedding of the tokenize pipeline:
toLowerCase, the two global regex replacements, the punctuation sweep, the
whitespace split and the term filter.  The regexes use only disjoint
greedy character classes, so a deterministic left-to-right scanner with
maximal-munch spans is observationally equal to the backtracking engine
(argued case by case in the comments).  Character classes follow the ECMA
ASCII definitions; the model covers ASCII inputs (non-ASCII case mapping
and Unicode whitespace are out of scope and unused by the theorems). -/

/-- ASCII fragment of String.prototype.toLowerCase. -/
def jsToLower (c : Char) : Char :=
  if 'A' ≤ c && c ≤ 'Z' then Char.ofNat (c.toNat + 32) else c

/-- Character class d of the ECMA regex grammar. -/
def isDigitChar (c : Char) : Bool := '0' ≤ c && c ≤ '9'

/-- Character class [A-Z]. -/
def isUpperAZ (c : Char) : Bool := 'A' ≤ c && c ≤ 'Z'

/-- Character class [a-z]. -/
def isLowerAZ (c : Char) : Bool := 'a' ≤ c && c ≤ 'z'

/-- Character class [a-z] under the i flag: any ASCII letter. -/
def isLetterCI (c : Char) : Bool := isLowerAZ c || isUpperAZ c

/-- Character class [a-z0-9] under the i flag. -/
def isAlnumCI (c : Char) : Bool := isLetterCI c || isDigitChar c

/-- ASCII fragment of the ECMA class s: space, tab, line feed, carriage
return, form feed, vertical tab. -/
def jsIsSpace (c : Char) : Bool :=
  c = ' ' || c = '\t' || c = '\n' || c = '\r' || c.toNat = 12 || c.toNat = 11

/-- ECMA class w: ASCII letters, digits and underscore. -/
def isWordChar (c : Char) : Bool :=
  isDigitChar c || isUpperAZ c || isLowerAZ c || c = '_'

/-- Matcher for one occurrence of the citation pattern
(d+)s+([A-Z][a-z]+.?)s+(d+) at the head of the input; on success returns
the replacement text 1_2_3 (as substituted by the source) and the
remaining input.  All quantified classes are pairwise disjoint from their
successors, so greedy spans need no backtracking; the optional dot
branch fails exactly when the backtracking engine would. -/
def matchCitation (cs : List Char) : Option (List Char × List Char) :=
  let p1 := cs.span isDigitChar
  if p1.1 = [] then none else
  let p2 := p1.2.span jsIsSpace
  if p2.1 = [] then none else
  match p2.2 with
  | [] => none
  | u :: r3 =>
    if isUpperAZ u then
      let p3 := r3.span isLowerAZ
      if p3.1 = [] then none else
      let pdot : List Char × List Char :=
        match p3.2 with
        | '.' :: r5 => (['.'], r5)
        | _ => ([], p3.2)
      let p4 := pdot.2.span jsIsSpace
      if p4.1 = [] then none else
      let p5 := p4.2.span isDigitChar
      if p5.1 = [] then none else
      some (p1.1 ++ ['_'] ++ (u :: (p3.1 ++ pdot.1)) ++ ['_'] ++ p5.1, p5.2)
    else none

/-- One global-replace pass for a head matcher: scan left to right, on a
match emit the substitution and continue after the consumed text (the
replacement itself is not rescanned, as in String.prototype.replace), else
step one character.  Every successful match consumes at least one
character, so fuel = input length suffices and keeps the definition
structural. -/
def replaceAllGo (m : List Char → Option (List Char × List Char)) :
    Nat → List Char → List Char
  | 0, cs => cs
  | _ + 1, [] => []
  | fuel + 1, c :: cs =>
      match m (c :: cs) with
      | some (repl, rest) => repl ++ replaceAllGo m fuel rest
      | none => c :: replaceAllGo m fuel cs

/-- Global replacement of the citation pattern. -/
def replaceCitations (cs : List Char) : List Char :=
  replaceAllGo matchCitation cs.length cs

/-- Case-insensitive literal matcher (pattern given in lowercase). -/
def matchLiteralCI : List Char → List Char → Option (List Char)
  | [], cs => some cs
  | _ :: _, [] => none
  | p :: ps, c :: cs => if jsToLower c = p then matchLiteralCI ps cs else none

/-- Matcher for one occurrence of the section pattern
sections+(d+[a-z]?)s*(([a-z0-9]+)) with the gi flags at the head of the
input; on success returns the substituted text section_1_2 and the
remaining input.  The optional single letter needs no backtracking: if
taking it makes the parenthesis fail, leaving it would fail on the same
letter. -/
def matchSectionRef (cs : List Char) : Option (List Char × List Char) :=
  match matchLiteralCI ("section".toList) cs with
  | none => none
  | some r1 =>
    let p1 := r1.span jsIsSpace
    if p1.1 = [] then none else
    let p2 := p1.2.span isDigitChar
    if p2.1 = [] then none else
    let pl : List Char × List Char :=
      match p2.2 with
      | c :: r4 => if isLetterCI c then ([c], r4) else ([], p2.2)
      | [] => ([], p2.2)
    let p3 := pl.2.span jsIsSpace
    match p3.2 with
    | '(' :: r6 =>
      let p4 := r6.span isAlnumCI
      if p4.1 = [] then none else
      match p4.2 with
      | ')' :: r8 =>
          some ("section_".toList ++ p2.1 ++ pl.1 ++ ['_'] ++ p4.1, r8)
      | _ => none
    | _ => none

/-- Global replacement of the section pattern. -/
def replaceSections (cs : List Char) : List Char :=
  replaceAllGo matchSectionRef cs.length cs

/-- The sweep replace([^ws_]/g, space): any character outside class w and
class s becomes a space (underscore is already in w). -/
def removeSpecialChars (cs : List Char) : List Char :=
  cs.map (fun c => if isWordChar c || jsIsSpace c then c else ' ')

/-- Split on runs of whitespace with the exact semantics of
String.prototype.split(/s+/): a leading separator contributes a leading
empty field and a trailing separator a trailing empty field.  The flag
records whether the scanner is inside a separator run. -/
def splitWsGo (inSep : Bool) (acc : List Char) : List Char → List (List Char)
  | [] => if inSep then [[]] else [acc.reverse]
  | c :: cs =>
      if inSep then
        if jsIsSpace c then splitWsGo true [] cs
        else splitWsGo false [c] cs
      else
        if jsIsSpace c then acc.reverse :: splitWsGo true [] cs
        else splitWsGo false (c :: acc) cs

/-- Model of split(/s+/). -/
def splitWs (cs : List Char) : List (List Char) :=
  splitWsGo false [] cs

/-- The curated exception list of BM25.isLegalAbbreviation. -/
def legalAbbreviations : List String :=
  ["v", "vs", "sc", "hc", "us", "uk", "eu", "ca", "ny", "dc",
   "j", "cj", "jj", "llp", "llc", "inc", "ltd", "plc"]

/-- The stop-word list of BM25.isStopWord. -/
def stopWords : List String :=
  ["the", "a", "an", "and", "or", "but", "in", "on", "at", "to", "for",
   "of", "with", "by", "from", "as", "is", "was", "are", "were", "been",
   "be", "have", "has", "had", "do", "does", "did", "will", "would",
   "should", "could", "may", "might", "must", "can", "this", "that",
   "these", "those", "i", "you", "he", "she", "it", "we", "they"]

/-- ASCII model of term.toLowerCase() on whole strings. -/
def strToLower (s : String) : String :=
  String.mk (s.toList.map jsToLower)

/-- Model of BM25.isLegalAbbreviation. -/
def isLegalAbbreviation (term : String) : Bool :=
  legalAbbreviations.contains (strToLower term)

/-- Model of BM25.isStopWord. -/
def isStopWord (term : String) : Bool :=
  stopWords.contains (strToLower term)

/-- Model of BM25.tokenize: lowercase, citation replacement, section
replacement, punctuation sweep, whitespace split, then the filter that
drops short non-abbreviation terms and stop words. -/
def tokenize (text : String) : List String :=
  if text = "" then []
  else
    let lowered := text.toList.map jsToLower
    let cleaned := removeSpecialChars (replaceSections (replaceCitations lowered))
    ((splitWs cleaned).map (fun cs => String.mk cs)).filter
      (fun term => !(term.length ≤ 2 && !(isLegalAbbreviation term)) && !(isStopWord term))

/-- C4: evaluation at the failing input.  The citation 123 U.S. 456 is
split into the two tokens 123 and 456 instead of one atomic token: the
citation regex demands an uppercase abbreviation letter but runs after
toLowerCase, so it can never match.  The section pattern, whose regex
carries the i flag, does collapse Section 42(a) into the single token
section_42_a. -/
theorem tokenize_splits_citation_mid_reference :
    tokenize "123 U.S. 456" = ["123", "456"] ∧
      tokenize "Section 42(a)" = ["section_42_a"] := by
  decide

/-! ## HybridSearchManager.deduplicateResults / hashText
(server/utils/vectorDbProviders/hybridSearch.js)

The candidate records carry only the fields deduplication reads: docId
(possibly absent, hence Option), id and text.  The 32-bit-wrapping hash of
hashText is modelled over Int; charCodeAt is the UTF-16 code unit, equal
to Char.toNat for basic-plane characters (the only ones exercised). -/

structure SearchResult where
  docId : Option String
  id : String
  text : String
deriving DecidableEq, Repr

/-- Coercion of a double holding an integer to a signed 32-bit value, as
performed by the bitwise operations in hashText. -/
def toInt32 (n : Int) : Int := (n + 2 ^ 31) % 2 ^ 32 - 2 ^ 31

/-- One loop iteration of hashText:
hash = ((hash << 5) - hash) + charCode, followed by hash = hash & hash.
The shift coerces to int32 and multiplies by 32 (wrapping); the
subtraction and addition are exact in double precision at these
magnitudes; the final self-AND coerces back to int32. -/
def hashStep (h : Int) (c : Nat) : Int := toInt32 (toInt32 (h * 32) - h + c)

/-- ASCII fragment of String.prototype.trim. -/
def jsTrim (cs : List Char) : List Char :=
  ((cs.dropWhile jsIsSpace).reverse.dropWhile jsIsSpace).reverse

/-- Digit characters of Number.prototype.toString(36): 0-9 then a-z. -/
def b36Digit (d : Nat) : Char :=
  if d < 10 then Char.ofNat (48 + d) else Char.ofNat (87 + d)

/-- Base-36 digits of a natural number, most significant first; the fuel
(any bound on the digit count, here the number itself plus one) keeps the
recursion structural. -/
def natToB36 : Nat → Nat → List Char
  | 0, _ => []
  | fuel + 1, n =>
      if n < 36 then [b36Digit n]
      else natToB36 fuel (n / 36) ++ [b36Digit (n % 36)]

/-- Number.prototype.toString(36) for integer values: a leading minus sign
for negatives, then base-36 digits. -/
def intToString36 (i : Int) : String :=
  if i < 0 then "-" ++ String.mk (natToB36 (i.natAbs + 1) i.natAbs)
  else String.mk (natToB36 (i.toNat + 1) i.toNat)

/-- Model of HybridSearchManager.hashText: an empty (falsy) text hashes to
the string 0; otherwise the first 200 characters are lower-cased and
trimmed, folded through the 32-bit hash loop from 0, and rendered in
base 36. -/
def hashText (text : String) : String :=
  if text = "" then "0"
  else
    let normalized := jsTrim ((text.toList.take 200).map jsToLower)
    intToString36 (normalized.foldl (fun h c => hashStep h c.toNat) 0)

/-- The document-id part of the deduplication key:
result.docId or result.id, an empty docId being falsy. -/
def resultKeyId (r : SearchResult) : String :=
  match r.docId with
  | some s => if s = "" then r.id else s
  | none => r.id

/-- The deduplication key docId_textHash of deduplicateResults. -/
def dedupKey (r : SearchResult) : String :=
  resultKeyId r ++ "_" ++ hashText r.text

/-- The loop of deduplicateResults: the seen map is a set of keys; the
first candidate with a given key is kept, later ones are dropped. -/
def dedupGo (seen : List String) : List SearchResult → List SearchResult
  | [] => []
  | r :: rs =>
      if seen.contains (dedupKey r) then dedupGo seen rs
      else r :: dedupGo (dedupKey r :: seen) rs

/-- Model of HybridSearchManager.deduplicateResults. -/
def deduplicateResults (results : List SearchResult) : List SearchResult :=
  dedupGo [] results

lemma dedupGo_idem (results : List SearchResult) :
    ∀ seen : List String, dedupGo seen (dedupGo seen results) = dedupGo seen results := by
  induction results with
  | nil => intro seen; rfl
  | cons r rs ih =>
      intro seen
      by_cases h : seen.contains (dedupKey r) = true
      · simp only [dedupGo, if_pos h]
        exact ih seen
      · simp only [dedupGo, if_neg h]
        rw [ih (dedupKey r :: seen)]

/-- C9: deduplicateResults is idempotent — a second pass over its own
output (keyed by document id and the 32-bit hash of the first 200
normalized characters of the text) removes nothing. -/
theorem deduplicateResults_idempotent (results : List SearchResult) :
    deduplicateResults (deduplicateResults results) = deduplicateResults results :=
  dedupGo_idem results []

/-! ## BM25 scoring and the BM25 retrieval path
(server/utils/vectorDbProviders/bm25.js and
HybridSearchManager.performBM25Search)

Scores live in a linear ordered field α so that every definition stays
executable; the only transcendental quantity, the idf table built with
Math.log in buildIndex, is passed in as an explicit function and tied to
the corpus by the IdfFromIndex predicate, instantiated at ℝ with Real.log
in the theorems.  The arithmetic inside scoreDocument is the exact
floating-point expression of the source read over the field. -/

/-- Documents as shaped by getAllWorkspaceDocuments; absent fields are the
empty string (falsy). -/
structure Doc where
  id : Nat
  docId : String
  text : String
  pageContent : String
  content : String
  title : String
deriving DecidableEq, Repr

/-- Placeholder for an out-of-range JavaScript index (never reached: every
access below is within bounds). -/
def Doc.empty : Doc := ⟨0, "", "", "", "", ""⟩

/-- Model of BM25.getDocumentText: doc.text or doc.pageContent or
doc.content or doc.title or the empty string. -/
def getDocumentText (d : Doc) : String :=
  if d.text ≠ "" then d.text
  else if d.pageContent ≠ "" then d.pageContent
  else if d.content ≠ "" then d.content
  else if d.title ≠ "" then d.title
  else ""

/-- Tokens of one document, as computed in buildIndex. -/
def docTokens (d : Doc) : List String :=
  tokenize (getDocumentText d)

/-- documentLengths[i] of buildIndex. -/
def docLength (d : Doc) : Nat := (docTokens d).length

/-- totalLength accumulated by buildIndex. -/
def totalLength (docs : List Doc) : Nat :=
  (docs.map docLength).sum

/-- avgDocLength = totalLength / documentCount of buildIndex (the empty
corpus, a 0/0 NaN in JavaScript, is excluded by the callers). -/
def avgDocLength {α : Type} [LinearOrderedField α] (docs : List Doc) : α :=
  (totalLength docs : α) / (docs.length : α)

/-- termDocumentFrequency of buildIndex: in how many documents a term
occurs. -/
def dfOf (docs : List Doc) (t : String) : Nat :=
  docs.countP (fun d => (docTokens d).contains t)

/-- The argument of Math.log in buildIndex:
(N - df + 0.5) / (df + 0.5) + 1, computed in ℚ. -/
def idfArg (n df : Nat) : ℚ :=
  ((n : ℚ) - (df : ℚ) + 1 / 2) / ((df : ℚ) + 1 / 2) + 1

/-- Characterisation of the idf lookup this.idf.get(term) or 0 of
scoreDocument against the table built by buildIndex: terms absent from the
corpus read as 0, indexed terms as the logarithm computed by buildIndex. -/
def IdfFromIndex (docs : List Doc) (idf : String → ℝ) : Prop :=
  ∀ t, idf t =
    if dfOf docs t = 0 then 0
    else Real.log ((idfArg docs.length (dfOf docs t) : ℚ) : ℝ)

/-- Model of BM25.scoreDocument: fold over the query tokens, skipping
terms with zero frequency and otherwise accumulating
idf * (tf * (k1 + 1)) / (tf + k1 * (1 - b + b * (docLength / avgDocLength))). -/
def scoreDocument {α : Type} [LinearOrderedField α] (k1 b : α) (idf : String → α)
    (tf : String → Nat) (docLen avgLen : α) (queryTokens : List String) : α :=
  queryTokens.foldl
    (fun score t =>
      if tf t = 0 then score
      else
        score +
          idf t * (((tf t : α) * (k1 + 1)) /
            ((tf t : α) + k1 * (1 - b + b * (docLen / avgLen)))))
    0

/-- One element of the scores array of BM25.search: index, score and the
document itself.  The bm25Score field models the dynamic property of the
same name, absent (none) on objects produced by search. -/
structure BM25Hit (α : Type) where
  index : Nat
  score : α
  document : Doc
  bm25Score : Option α
deriving DecidableEq, Repr

/-- Stable insertion for the comparator (a, b) => b.score - a.score:
descending by score, an incoming element placed before the first strictly
smaller one (equal scores keep submission order, as Array.prototype.sort
guarantees stability). -/
def insertDesc {α : Type} [LinearOrderedField α] (x : BM25Hit α) :
    List (BM25Hit α) → List (BM25Hit α)
  | [] => [x]
  | y :: ys => if y.score ≤ x.score then x :: y :: ys else y :: insertDesc x ys

/-- The sort of BM25.search: stable, descending by score. -/
def sortByScoreDesc {α : Type} [LinearOrderedField α]
    (l : List (BM25Hit α)) : List (BM25Hit α) :=
  l.foldr insertDesc []

/-- Model of BM25.search: score every indexed document against the
tokenized query, sort descending by score and keep the first topK. -/
def search {α : Type} [LinearOrderedField α] (docs : List Doc) (k1 b : α)
    (idf : String → α) (query : String) (topK : Nat) : List (BM25Hit α) :=
  let queryTokens := tokenize query
  let scores := (List.range docs.length).map (fun i =>
    { index := i,
      score :=
        scoreDocument k1 b idf (fun t => (docTokens (docs.getD i Doc.empty)).count t)
          ((docTokens (docs.getD i Doc.empty)).length : α) (avgDocLength docs) queryTokens,
      document := docs.getD i Doc.empty,
      bm25Score := none })
  (sortByScoreDesc scores).take topK

/-- Math.max spread over a list, as used on the mapped scores (the empty
case is unreachable behind the emptiness guard). -/
def jsMaxList {α : Type} [LinearOrderedField α] : List α → α
  | [] => 0
  | v :: vs => vs.foldl max v

/-- Model of BM25.normalizeScores: an empty input is returned as is; the
maximum of the bm25Score fields (a missing field reading as 0) is taken;
a zero maximum returns the input unchanged; otherwise every record gets
bm25Score divided by the maximum. -/
def normalizeScores {α : Type} [LinearOrderedField α]
    (results : List (BM25Hit α)) : List (BM25Hit α) :=
  if results = [] then results
  else
    let maxScore : α := jsMaxList (results.map (fun r => r.bm25Score.getD 0))
    if maxScore = 0 then results
    else results.map (fun r => { r with bm25Score := some (r.bm25Score.getD 0 / maxScore) })

/-- Result records of performBM25Search: the spread document plus the
bm25Score field — set from r.score, the raw search score — and the path
tag. -/
structure BM25PathResult (α : Type) where
  document : Doc
  bm25Score : α
  source : String
deriving DecidableEq, Repr

/-- Model of HybridSearchManager.performBM25Search on a fetched corpus:
empty corpus short-circuits; otherwise a BM25 index with k1 = 1.5 and
b = 0.75 is built, searched, passed through normalizeScores, and mapped to
path results carrying bm25Score := r.score. -/
def performBM25Search {α : Type} [LinearOrderedField α] (idf : String → α)
    (allDocs : List Doc) (query : String) (topN : Nat) : List (BM25PathResult α) :=
  if allDocs = [] then []
  else
    (normalizeScores (search allDocs (3 / 2) (3 / 4) idf query topN)).map
      (fun r => { document := r.document, bm25Score := r.score, source := "bm25" })

/-- First document of the two-document corpus used by the concrete
theorems; its text tokenizes to [contract, contract, contract]. -/
def bmDocA : Doc :=
  { id := 0, docId := "d0", text := "contract contract contract",
    pageContent := "", content := "", title := "Doc A" }

/-- Second document of the concrete corpus; its text tokenizes to
[lease]. -/
def bmDocB : Doc :=
  { id := 1, docId := "d1", text := "lease",
    pageContent := "", content := "", title := "Doc B" }

lemma foldl_skip_add_eq_sum {α : Type} [AddCommMonoid α] (p : String → Prop)
    [DecidablePred p] (g : String → α) :
    ∀ (l : List String) (s : α),
      l.foldl (fun score t => if p t then score else score + g t) s =
        s + (l.map (fun t => if p t then 0 else g t)).sum := by
  intro l
  induction l with
  | nil => intro s; simp
  | cons t ts ih =>
      intro s
      simp only [List.foldl_cons, List.map_cons, List.sum_cons]
      by_cases h : p t
      · rw [if_pos h, if_pos h, ih, zero_add]
      · rw [if_neg h, if_neg h, ih, add_assoc]

lemma scoreDocument_eq_sum {α : Type} [LinearOrderedField α] (k1 b : α)
    (idf : String → α) (tf : String → Nat) (docLen avgLen : α) (q : List String) :
    scoreDocument k1 b idf tf docLen avgLen q =
      (q.map (fun t =>
        if tf t = 0 then 0
        else idf t * (((tf t : α) * (k1 + 1)) /
          ((tf t : α) + k1 * (1 - b + b * (docLen / avgLen)))))).sum := by
  unfold scoreDocument
  rw [foldl_skip_add_eq_sum (fun t => tf t = 0)
    (fun t => idf t * (((tf t : α) * (k1 + 1)) /
      ((tf t : α) + k1 * (1 - b + b * (docLen / avgLen))))) q 0]
  rw [zero_add]

lemma idf_from_index_nonneg (docs : List Doc) (idf : String → ℝ)
    (hidf : IdfFromIndex docs idf) (t : String) : 0 ≤ idf t := by
  rw [hidf t]
  by_cases h : dfOf docs t = 0
  · rw [if_pos h]
  · rw [if_neg h]
    apply Real.log_nonneg
    have hdf : dfOf docs t ≤ docs.length := List.countP_le_length _
    have h1 : (1 : ℚ) ≤ idfArg docs.length (dfOf docs t) := by
      unfold idfArg
      have hc : (dfOf docs t : ℚ) ≤ (docs.length : ℚ) := by exact_mod_cast hdf
      have hd0 : (0 : ℚ) < (dfOf docs t : ℚ) + 1 / 2 := by positivity
      have hnum : (0 : ℚ) ≤ (docs.length : ℚ) - (dfOf docs t : ℚ) + 1 / 2 := by linarith
      have := div_nonneg hnum (le_of_lt hd0)
      linarith
    exact_mod_cast h1

/-- C8: BM25 term-frequency monotonicity.  Against any corpus-built idf
table, a document whose frequency for some term is k ≥ 1 scores at least
as high as the otherwise identical document (same length, same
frequencies for every other term) in which that term does not occur, for
any query, any positive k1, any b in [0,1], a nonnegative document length
and a positive average length — in particular for the source defaults
k1 = 1.5, b = 0.75 and the quantities computed by buildIndex. -/
theorem bm25_score_monotone_in_tf (docs : List Doc) (idf : String → ℝ)
    (hidf : IdfFromIndex docs idf)
    (k1 b docLen avgLen : ℝ) (hk1 : 0 < k1) (hb0 : 0 ≤ b) (hb1 : b ≤ 1)
    (hdl : 0 ≤ docLen) (havg : 0 < avgLen)
    (tfWith tfWithout : String → Nat) (term : String) (k : Nat) (hk : 1 ≤ k)
    (hw : tfWith term = k) (hwo : tfWithout term = 0)
    (hoth : ∀ t, t ≠ term → tfWith t = tfWithout t)
    (queryTokens : List String) :
    scoreDocument k1 b idf tfWithout docLen avgLen queryTokens ≤
      scoreDocument k1 b idf tfWith docLen avgLen queryTokens := by
  rw [scoreDocument_eq_sum, scoreDocument_eq_sum]
  apply List.sum_le_sum
  intro t _
  by_cases hteq : t = term
  · subst hteq
    rw [hwo, hw, if_pos rfl, if_neg (by omega)]
    have hidfnn : 0 ≤ idf t := idf_from_index_nonneg docs idf hidf t
    have hknn : (0 : ℝ) ≤ (k : ℝ) := Nat.cast_nonneg k
    have hinner : 0 ≤ 1 - b + b * (docLen / avgLen) := by
      have : 0 ≤ b * (docLen / avgLen) :=
        mul_nonneg hb0 (div_nonneg hdl (le_of_lt havg))
      linarith
    have hnum : (0 : ℝ) ≤ (k : ℝ) * (k1 + 1) := by nlinarith
    have hden : (0 : ℝ) ≤ (k : ℝ) + k1 * (1 - b + b * (docLen / avgLen)) := by nlinarith
    exact mul_nonneg hidfnn (div_nonneg hnum hden)
  · rw [hoth t hteq]

/-- C8 witness, at the source defaults: over the two-document corpus of
bmDocA and bmDocB with the idf table buildIndex computes for it, a
document of length 3 (average length 2) containing contract twice scores
at least as high as its twin without the term, on the query token list
[contract]. -/
theorem bm25_score_monotone_in_tf_witness :
    scoreDocument (3 / 2 : ℝ) (3 / 4)
        (fun t =>
          if dfOf [bmDocA, bmDocB] t = 0 then 0
          else Real.log ((idfArg [bmDocA, bmDocB].length (dfOf [bmDocA, bmDocB] t) : ℚ) : ℝ))
        (fun _ => 0) 3 2 ["contract"] ≤
      scoreDocument (3 / 2 : ℝ) (3 / 4)
        (fun t =>
          if dfOf [bmDocA, bmDocB] t = 0 then 0
          else Real.log ((idfArg [bmDocA, bmDocB].length (dfOf [bmDocA, bmDocB] t) : ℚ) : ℝ))
        (fun t => if t = "contract" then 2 else 0) 3 2 ["contract"] :=
  bm25_score_monotone_in_tf [bmDocA, bmDocB] _ (fun _ => rfl)
    (3 / 2) (3 / 4) 3 2 (by norm_num) (by norm_num) (by norm_num) (by norm_num) (by norm_num)
    (fun t => if t = "contract" then 2 else 0) (fun _ => 0) "contract" 2 (by norm_num)
    (by simp) rfl (fun t ht => by simp [ht]) ["contract"]

lemma foldl_max_replicate_zero {α : Type} [LinearOrderedField α] :
    ∀ n : Nat, (List.replicate n (0 : α)).foldl max 0 = 0 := by
  intro n
  induction n with
  | zero => rfl
  | succ n ih => simpa [List.replicate_succ] using ih

lemma jsMaxList_replicate_zero {α : Type} [LinearOrderedField α] (n : Nat) :
    jsMaxList (List.replicate n (0 : α)) = 0 := by
  cases n with
  | zero => rfl
  | succ n =>
      simp only [List.replicate_succ, jsMaxList]
      exact foldl_max_replicate_zero n

lemma normalizeScores_of_all_none {α : Type} [LinearOrderedField α]
    (hits : List (BM25Hit α)) (h : ∀ r ∈ hits, r.bm25Score = none) :
    normalizeScores hits = hits := by
  unfold normalizeScores
  by_cases he : hits = []
  · rw [if_pos he]
  · rw [if_neg he]
    have hmap : hits.map (fun r => r.bm25Score.getD 0) =
        List.replicate hits.length (0 : α) := by
      rw [show hits.length = (hits.map (fun r => r.bm25Score.getD 0)).length by simp]
      apply List.eq_replicate_of_mem
      intro b hb
      rcases List.mem_map.mp hb with ⟨r, hr, rfl⟩
      rw [h r hr]
      rfl
    simp only [hmap]
    rw [if_pos (jsMaxList_replicate_zero hits.length)]

lemma mem_insertDesc {α : Type} [LinearOrderedField α] (x y : BM25Hit α)
    (l : List (BM25Hit α)) : x ∈ insertDesc y l ↔ x = y ∨ x ∈ l := by
  induction l with
  | nil => simp [insertDesc]
  | cons z zs ih =>
      unfold insertDesc
      by_cases h : z.score ≤ y.score
      · rw [if_pos h]
        simp
      · rw [if_neg h]
        simp only [List.mem_cons, ih]
        tauto

lemma mem_sortByScoreDesc {α : Type} [LinearOrderedField α] (x : BM25Hit α)
    (l : List (BM25Hit α)) : x ∈ sortByScoreDesc l ↔ x ∈ l := by
  unfold sortByScoreDesc
  induction l with
  | nil => simp
  | cons y ys ih =>
      simp only [List.foldr_cons, mem_insertDesc, List.mem_cons, ih]

lemma length_insertDesc {α : Type} [LinearOrderedField α] (y : BM25Hit α)
    (l : List (BM25Hit α)) : (insertDesc y l).length = l.length + 1 := by
  induction l with
  | nil => rfl
  | cons z zs ih =>
      unfold insertDesc
      by_cases h : z.score ≤ y.score
      · rw [if_pos h]
        simp
      · rw [if_neg h]
        simp [ih]

lemma length_sortByScoreDesc {α : Type} [LinearOrderedField α]
    (l : List (BM25Hit α)) : (sortByScoreDesc l).length = l.length := by
  unfold sortByScoreDesc
  induction l with
  | nil => rfl
  | cons y ys ih => simp [List.foldr_cons, length_insertDesc, ih]

lemma search_all_none {α : Type} [LinearOrderedField α] (docs : List Doc)
    (k1 b : α) (idf : String → α) (query : String) (topK : Nat) :
    ∀ r ∈ search docs k1 b idf query topK, r.bm25Score = none := by
  intro r hr
  simp only [search] at hr
  have h1 := List.mem_of_mem_take hr
  rw [mem_sortByScoreDesc] at h1
  rcases List.mem_map.mp h1 with ⟨i, _, rfl⟩
  rfl

/-- C3: evaluation at the failing input.  On the two-document corpus
(bmDocA with three occurrences of contract, bmDocB with one token) and the
query contract, with the idf table buildIndex computes, the BM25 retrieval
path hands a result to fusion whose bm25Score is strictly above 1 — the
raw BM25 score, never divided by the path maximum: search results carry
the field score while normalizeScores looks for bm25Score (always absent,
so the computed maximum is 0 and the list passes through unchanged), and
the final mapping overwrites bm25Score with the raw r.score anyway. -/
theorem bm25_path_returns_raw_score_above_one :
    ∃ r ∈ performBM25Search
        (fun t =>
          if dfOf [bmDocA, bmDocB] t = 0 then 0
          else Real.log ((idfArg [bmDocA, bmDocB].length (dfOf [bmDocA, bmDocB] t) : ℚ) : ℝ))
        [bmDocA, bmDocB] "contract" 20,
      1 < r.bm25Score := by
  set docs : List Doc := [bmDocA, bmDocB] with hdocs
  set idf : String → ℝ := fun t =>
    if dfOf docs t = 0 then 0
    else Real.log ((idfArg docs.length (dfOf docs t) : ℚ) : ℝ) with hidf
  have hne : docs ≠ [] := by simp [hdocs]
  have hnorm : normalizeScores (search docs (3 / 2) (3 / 4) idf "contract" 20) =
      search docs (3 / 2) (3 / 4) idf "contract" 20 :=
    normalizeScores_of_all_none _ (search_all_none docs (3 / 2) (3 / 4) idf "contract" 20)
  have hperf : performBM25Search idf docs "contract" 20 =
      (search docs (3 / 2) (3 / 4) idf "contract" 20).map
        (fun r => { document := r.document, bm25Score := r.score, source := "bm25" }) := by
    unfold performBM25Search
    rw [if_neg hne, hnorm]
  -- the hit scored for document 0 (bmDocA)
  have hidfc : idf "contract" = Real.log 2 := by
    have hdf : dfOf docs "contract" = 1 := by decide
    rw [hidf]
    simp only [hdf]
    norm_num [idfArg, hdocs]
  have hcnt : (docTokens (docs.getD 0 Doc.empty)).count "contract" = 3 := by decide
  have hlen : (docTokens (docs.getD 0 Doc.empty)).length = 3 := by decide
  have havg2 : avgDocLength (α := ℝ) docs = 2 := by
    have htot : totalLength docs = 4 := by decide
    have hl : docs.length = 2 := by decide
    unfold avgDocLength
    rw [htot, hl]
    norm_num
  have hscore :
      scoreDocument (3 / 2 : ℝ) (3 / 4) idf
          (fun t => (docTokens (docs.getD 0 Doc.empty)).count t)
          ((docTokens (docs.getD 0 Doc.empty)).length : ℝ) (avgDocLength docs)
          (tokenize "contract") =
        Real.log 2 * (40 / 27) := by
    have hq : tokenize "contract" = ["contract"] := by decide
    rw [hq]
    unfold scoreDocument
    simp only [List.foldl_cons, List.foldl_nil, hcnt, hlen, havg2, hidfc]
    norm_num
  have hgt : 1 < Real.log 2 * (40 / 27) := by
    nlinarith [Real.log_two_gt_d9]
  -- membership of the document-0 hit in the search output
  have hmem :
      ({ index := 0,
         score :=
           scoreDocument (3 / 2 : ℝ) (3 / 4) idf
             (fun t => (docTokens (docs.getD 0 Doc.empty)).count t)
             ((docTokens (docs.getD 0 Doc.empty)).length : ℝ) (avgDocLength docs)
             (tokenize "contract"),
         document := docs.getD 0 Doc.empty,
         bm25Score := none } : BM25Hit ℝ) ∈
        search docs (3 / 2) (3 / 4) idf "contract" 20 := by
    unfold search
    have hlens : ∀ l : List (BM25Hit ℝ), l.length ≤ 20 → (sortByScoreDesc l).take 20 = sortByScoreDesc l := by
      intro l hl
      exact List.take_of_length_le (by rw [length_sortByScoreDesc]; exact hl)
    rw [hlens _ (by simp [hdocs])]
    rw [mem_sortByScoreDesc]
    apply List.mem_map.mpr
    refine ⟨0, ?_, rfl⟩
    simp [hdocs]
  rw [hperf]
  refine ⟨_, List.mem_map.mpr ⟨_, hmem, rfl⟩, ?_⟩
  show (1 : ℝ) <
    scoreDocument (3 / 2 : ℝ) (3 / 4) idf
      (fun t => (docTokens (docs.getD 0 Doc.empty)).count t)
      ((docTokens (docs.getD 0 Doc.empty)).length : ℝ) (avgDocLength docs)
      (tokenize "contract")
  rw [hscore]
  exact hgt

end ParalegalAI
